import Mathlib

/-!
# Verification of the PdfExtract core conversion engine

This file gives a shallow embedding, over the rationals, of the core
geometry pipeline of the PdfExtract plugin:

* `compute_code`, `clipLoop`, `clip_line_to_rect` embed the
  Cohen-Sutherland line clipper `clip_line_to_rect` of
  `PdfExtract/pdftodxf_dialog.py` (lines 49-109).  The unbounded
  `while True:` loop of the source is embedded with an explicit fuel
  parameter; `ClipResult.diverged` marks fuel exhaustion and is proved
  unreachable for well-formed crop rectangles.
* `pass_size` embeds the identical size-filter blocks of
  `PdfToVectorTask._write_geometry` (pdftodxf_dialog.py 963-987) and
  `PdfToDxfAlgorithm._create_geometry_layer` (pdf_to_dxf_algorithm.py
  569-591).
* `writeItem`, `writeItems`, `writeGroup`, `write_geometry` embed the
  tabular geometry writer `PdfToVectorTask._write_geometry`
  (pdftodxf_dialog.py 922-1078), including the group-level
  bounding-box pre-check.
* `convert_direct_drawings` embeds the drawings phase of the
  module-level `convert_pdf_page_to_dxf_direct`
  (pdftodxf_dialog.py 112-247).
* `create_geometry_layer` embeds the drawing-item loop of
  `PdfToDxfAlgorithm._create_geometry_layer`
  (pdf_to_dxf_algorithm.py 552-675), whose size filter runs outside
  the per-item exception handler; exceptions escaping an item are
  modelled with `Except`.
* `simple_transform` embeds `PdfToDxfAlgorithm._simple_transform`
  (pdf_to_dxf_algorithm.py 792-812).

Machine floats of the source are modelled as `ℚ`; all arithmetic in the
relevant code paths is exact field arithmetic, so no rounding behaviour
is lost that the verified claims depend on.
-/

/-- Axis-aligned rectangle with the field names of a PyMuPDF `fitz.Rect`
(`x0`, `y0`, `x1`, `y1`).  Used both for crop regions and for rectangle
primitives. -/
structure FRect where
  x0 : ℚ
  y0 : ℚ
  x1 : ℚ
  y1 : ℚ
deriving DecidableEq, Repr

/-- PyMuPDF `Rect.width` as used by the size-filter code (`rect.width`). -/
def FRect.width (r : FRect) : ℚ := r.x1 - r.x0

/-- PyMuPDF `Rect.height` as used by the size-filter code (`rect.height`). -/
def FRect.height (r : FRect) : ℚ := r.y1 - r.y0

/-- Region code of a point, from the inner `compute_code` of
`clip_line_to_rect` (pdftodxf_dialog.py 61-71): bit 1 = LEFT
(`x < rect.x0`), bit 2 = RIGHT (`x > rect.x1`), bit 4 = BOTTOM
(`y < rect.y0`), bit 8 = TOP (`y > rect.y1`).  The source sets the
bits with `|=`; since LEFT/RIGHT and BOTTOM/TOP are mutually exclusive
`if`/`elif` branches the OR is a sum of disjoint bits. -/
def compute_code (r : FRect) (x y : ℚ) : ℕ :=
  (if x < r.x0 then 1 else if r.x1 < x then 2 else 0)
  + (if y < r.y0 then 4 else if r.y1 < y then 8 else 0)

/-- Result of the clipper: a clipped segment, `None` (the segment is
entirely outside), or fuel exhaustion of the embedded loop (proved
unreachable below for well-formed rectangles). -/
inductive ClipResult where
  | seg (x1 y1 x2 y2 : ℚ)
  | excluded
  | diverged
deriving DecidableEq, Repr

/-- Intersection point computed by one iteration of the
Cohen-Sutherland loop (pdftodxf_dialog.py 89-101): the `TOP`,
`BOTTOM`, `RIGHT`, `LEFT` branches in the order of the source's
`if`/`elif` chain. -/
def clipPoint (r : FRect) (codeOut : ℕ) (x1 y1 x2 y2 : ℚ) : ℚ × ℚ :=
  if codeOut &&& 8 ≠ 0 then
    (x1 + (x2 - x1) * (r.y1 - y1) / (y2 - y1), r.y1)
  else if codeOut &&& 4 ≠ 0 then
    (x1 + (x2 - x1) * (r.y0 - y1) / (y2 - y1), r.y0)
  else if codeOut &&& 2 ≠ 0 then
    (r.x1, y1 + (y2 - y1) * (r.x1 - x1) / (x2 - x1))
  else
    (r.x0, y1 + (y2 - y1) * (r.x0 - x1) / (x2 - x1))

/-- The `while True:` loop of `clip_line_to_rect`
(pdftodxf_dialog.py 76-109) with explicit fuel.  Each iteration:
accept when both codes are zero, reject when the codes share a bit,
otherwise pick the endpoint with nonzero code (`code_out`), move it to
the intersection with the violated boundary and recompute its code. -/
def clipLoop (r : FRect) : ℕ → ℚ → ℚ → ℚ → ℚ → ℕ → ℕ → ClipResult
  | 0, _, _, _, _, _, _ => .diverged
  | fuel + 1, x1, y1, x2, y2, code1, code2 =>
    if code1 = 0 ∧ code2 = 0 then .seg x1 y1 x2 y2
    else if code1 &&& code2 ≠ 0 then .excluded
    else
      let codeOut := if code1 ≠ 0 then code1 else code2
      let p := clipPoint r codeOut x1 y1 x2 y2
      if codeOut = code1 then
        clipLoop r fuel p.1 p.2 x2 y2 (compute_code r p.1 p.2) code2
      else
        clipLoop r fuel x1 y1 p.1 p.2 code1 (compute_code r p.1 p.2)

/-- Embedding of `clip_line_to_rect(x1, y1, x2, y2, rect)`
(pdftodxf_dialog.py 49-109).  Fuel 5 is enough: the loop performs at
most four clipping iterations before accepting or rejecting, as the
termination development below proves. -/
def clip_line_to_rect (x1 y1 x2 y2 : ℚ) (r : FRect) : ClipResult :=
  clipLoop r 5 x1 y1 x2 y2 (compute_code r x1 y1) (compute_code r x2 y2)

/-!
## Page content model

`page.get_drawings()` returns a list of path dictionaries; each has an
optional bounding rectangle (`d.get("rect")`) and a list of item
tuples (`d.get("items", [])`).  An item tuple starts with a command
tag (`"l"`, `"c"`, `"re"`/`"rect"`, or something else) followed by its
point or rectangle data.  `DrawItem` is the tagged-variant view of a
well-formed item; `RawItem` additionally has the malformed shape used
by the best-effort error-handling claims: a `"l"` item missing its
second point, for which `item[2]` raises `IndexError` in Python.
-/

/-- Well-formed drawing item, the tagged variants dispatched by the
`str(cmd).lower()` comparisons of both geometry writers.  `other`
keeps the unrecognized command tag and whatever point-like data
follows it. -/
inductive DrawItem where
  | line (p1 p2 : ℚ × ℚ)
  | curve (pts : List (ℚ × ℚ))
  | rect (r : FRect)
  | other (tag : String) (pts : List (ℚ × ℚ))
deriving DecidableEq, Repr

/-- Drawing item as found in a path's item list: either well-formed or
a malformed line item `("l", p1)` whose missing second point makes
`item[2]` raise. -/
inductive RawItem where
  | ok (it : DrawItem)
  | badLine (p1 : ℚ × ℚ)
deriving DecidableEq, Repr

/-- One element of `page.get_drawings()`: the reported bounding box
(`d.get("rect")`, may be absent) and the item list. -/
structure DrawGroup where
  rect : Option FRect
  items : List RawItem
deriving DecidableEq, Repr

/-- Python `max` over a nonempty list (head as the running value). -/
def listMax : List ℚ → ℚ
  | [] => 0
  | x :: xs => xs.foldl max x

/-- Python `min` over a nonempty list (head as the running value). -/
def listMin : List ℚ → ℚ
  | [] => 0
  | x :: xs => xs.foldl min x

/-- Type-specific bounding-box extents `(bbox_w, bbox_h)` computed by
the size filter (pdftodxf_dialog.py 966-981, identically
pdf_to_dxf_algorithm.py 572-585).  Both start from `0, 0`, so every
command tag without a branch -- and a curve without points -- keeps
extents `(0, 0)`. -/
def sizeWH : DrawItem → ℚ × ℚ
  | .line p1 p2 => (|p1.1 - p2.1|, |p1.2 - p2.2|)
  | .curve pts =>
    if pts = [] then (0, 0)
    else
      (listMax (pts.map Prod.fst) - listMin (pts.map Prod.fst),
       listMax (pts.map Prod.snd) - listMin (pts.map Prod.snd))
  | .rect r => (r.width, r.height)
  | .other _ _ => (0, 0)

/-- The size filter (pdftodxf_dialog.py 963-987 and
pdf_to_dxf_algorithm.py 569-591): `pass_size = True`; when
`min_size > 0` the item fails iff `max(bbox_w, bbox_h) < min_size`. -/
def pass_size (it : DrawItem) (minSize : ℚ) : Bool :=
  if 0 < minSize then
    if max (sizeWH it).1 (sizeWH it).2 < minSize then false else true
  else true

/-- Coordinate transform used by the tabular writer
(pdftodxf_dialog.py 1005-1009, 1039-1040, 1063-1067):
`(x + ox, page_h - y + oy)`. -/
def tr2 (pageH ox oy : ℚ) (p : ℚ × ℚ) : ℚ × ℚ :=
  (p.1 + ox, pageH - p.2 + oy)

/-- The Python inequality chain
`crop.x0 <= pt[0] <= crop.x1 and crop.y0 <= pt[1] <= crop.y1`
(pdftodxf_dialog.py 1029-1030, 210-211). -/
def inCrop (c : FRect) (p : ℚ × ℚ) : Bool :=
  decide (c.x0 ≤ p.1) && decide (p.1 ≤ c.x1) &&
  decide (c.y0 ≤ p.2) && decide (p.2 ≤ c.y1)

/-- One emitted geometry feature: the `id` attribute, the `type`
attribute and the polyline vertices handed to the writer. -/
structure Feature where
  fid : ℕ
  ftype : String
  pts : List (ℚ × ℚ)
deriving DecidableEq, Repr

/-- Configuration of one `_write_geometry` call: crop rectangle
(`self.crop_rect`), `self.min_size`, `self.skip_curves`, the page
height and the placement offsets `ox, oy`. -/
structure WCfg where
  crop : Option FRect
  minSize : ℚ
  skipCurves : Bool
  pageH : ℚ
  ox : ℚ
  oy : ℚ
deriving DecidableEq, Repr

/-- Per-item body of the tabular geometry writer
(pdftodxf_dialog.py 957-1076).  The whole body sits in a `try` whose
`except` skips the item, so a malformed line item contributes nothing
whether it raises in the size check (`min_size > 0`) or in the LINE
branch.  Returns the emitted feature, if any; the feature id is only
consumed (incremented by the caller) when a feature is returned,
mirroring `fid += 1` after each `writer.addFeature(feat)`. -/
def writeItem (cfg : WCfg) (fid : ℕ) : RawItem → Option Feature
  | .badLine _ => none
  | .ok it =>
    if pass_size it cfg.minSize = false then none
    else
      match it with
      | .line p1 p2 =>
        match cfg.crop with
        | some c =>
          match clip_line_to_rect p1.1 p1.2 p2.1 p2.2 c with
          | .seg a b a2 b2 =>
            some ⟨fid, "line",
              [tr2 cfg.pageH cfg.ox cfg.oy (a, b),
               tr2 cfg.pageH cfg.ox cfg.oy (a2, b2)]⟩
          | _ => none
        | none =>
          some ⟨fid, "line",
            [tr2 cfg.pageH cfg.ox cfg.oy p1, tr2 cfg.pageH cfg.ox cfg.oy p2]⟩
      | .curve pts =>
        if cfg.skipCurves then none
        else
          let allInside :=
            match cfg.crop with
            | some c => pts.all (inCrop c)
            | none => true
          if allInside = false then none
          else
            let tpts := pts.map (tr2 cfg.pageH cfg.ox cfg.oy)
            if 2 ≤ tpts.length then some ⟨fid, "curve", tpts⟩ else none
      | .rect r =>
        let emitRect : Option Feature :=
          some ⟨fid, "rect",
            [tr2 cfg.pageH cfg.ox cfg.oy (r.x0, r.y0),
             tr2 cfg.pageH cfg.ox cfg.oy (r.x1, r.y0),
             tr2 cfg.pageH cfg.ox cfg.oy (r.x1, r.y1),
             tr2 cfg.pageH cfg.ox cfg.oy (r.x0, r.y1),
             tr2 cfg.pageH cfg.ox cfg.oy (r.x0, r.y0)]⟩
        match cfg.crop with
        | some c =>
          if r.x0 ≥ c.x0 ∧ r.x1 ≤ c.x1 ∧ r.y0 ≥ c.y0 ∧ r.y1 ≤ c.y1 then
            emitRect
          else none
        | none => emitRect
      | .other _ _ => none

/-- The item loop `for item in d.get("items", []):` of
`_write_geometry` threading the feature-id counter. -/
def writeItems (cfg : WCfg) : ℕ → List RawItem → List Feature × ℕ
  | fid, [] => ([], fid)
  | fid, it :: rest =>
    match writeItem cfg fid it with
    | some f =>
      let s := writeItems cfg (fid + 1) rest
      (f :: s.1, s.2)
    | none => writeItems cfg fid rest

/-- One iteration of the drawings loop of `_write_geometry`
(pdftodxf_dialog.py 947-955): with a crop rectangle and a reported
path bounding box, the whole group is skipped when the box does not
intersect the crop region; otherwise every item is processed. -/
def writeGroup (cfg : WCfg) (fid : ℕ) (g : DrawGroup) : List Feature × ℕ :=
  match cfg.crop with
  | some c =>
    match g.rect with
    | some dr =>
      if ¬(dr.x0 ≤ c.x1 ∧ dr.x1 ≥ c.x0 ∧ dr.y0 ≤ c.y1 ∧ dr.y1 ≥ c.y0) then
        ([], fid)
      else writeItems cfg fid g.items
    | none => writeItems cfg fid g.items
  | none => writeItems cfg fid g.items

/-- The full geometry writer `PdfToVectorTask._write_geometry` over
the drawings of one page, with the group-level pre-check. -/
def write_geometry (cfg : WCfg) : ℕ → List DrawGroup → List Feature
  | _, [] => []
  | fid, g :: gs =>
    let s := writeGroup cfg fid g
    s.1 ++ write_geometry cfg s.2 gs

/-- Comparison definition for the refinement claim C3, following the
spec's words: the same writer but running the per-item clip rules on
every item of every group directly, with no group-level bounding-box
pre-check. -/
def write_geometry_noPre (cfg : WCfg) : ℕ → List DrawGroup → List Feature
  | _, [] => []
  | fid, g :: gs =>
    let s := writeItems cfg fid g.items
    s.1 ++ write_geometry_noPre cfg s.2 gs

/-!
## The direct DXF conversion (pdftodxf_dialog.py 112-247)

In the module-level `convert_pdf_page_to_dxf_direct` the body of the
drawings loop `for path in paths:` consists of a single
`if crop_rect:` statement; the per-item processing block (size filter,
LINE/CURVE/RECTANGLE emission, lines 139-247) is nested inside it, and
no `for item in ...:` statement exists in the function, so the name
`item` is unbound.  Consequently, per path:

* `crop_rect is None`: the `if crop_rect:` suite is skipped entirely
  and the loop body does nothing;
* `crop_rect` present and the path's reported box does not intersect
  it: `continue`;
* `crop_rect` present otherwise: the `try:` block raises `NameError`
  at its first statement `cmd = item[0]`, the blanket
  `except Exception: continue` swallows it, and the path is skipped.

In every case no geometry entity is added to the DXF model space.
(The method of the same name in `pdf_to_dxf_algorithm.py` 348-473 has
the inner `for item in path.get("items", []):` loop and does emit.)
-/

/-- Geometry entities added for one path iteration of the drawings
loop of `convert_pdf_page_to_dxf_direct` (pdftodxf_dialog.py 129-247).
See the section comment: every branch adds nothing. -/
def directPathEntities (crop : Option FRect) (g : DrawGroup) : List Feature :=
  match crop with
  | none => []
  | some c =>
    match g.rect with
    | some dr =>
      if ¬(dr.x0 ≤ c.x1 ∧ dr.x1 ≥ c.x0 ∧ dr.y0 ≤ c.y1 ∧ dr.y1 ≥ c.y0) then
        []
      else []
    | none => []

/-- Geometry entities of the whole drawings phase of
`convert_pdf_page_to_dxf_direct` (pdftodxf_dialog.py 127-247). -/
def convert_direct_drawings (crop : Option FRect) : List DrawGroup → List Feature
  | [] => []
  | g :: gs => directPathEntities crop g ++ convert_direct_drawings crop gs

/-!
## The processing-algorithm geometry writer
(pdf_to_dxf_algorithm.py 552-675)

Same per-item pipeline as `_write_geometry`, but: no crop support, the
size filter (lines 569-591) runs *before* the `try:` of line 593, the
curve branch caps the control points at four, and unhandled commands
are written as short polylines.  An exception raised by the size
filter therefore propagates out of the item loop; this is modelled by
returning `Except.error ()`.
-/

/-- The size-filter block of `_create_geometry_layer` (lines 569-591)
on a raw item: for a malformed `("l", p1)` item with `min_size > 0`
the unpacking `p1, p2 = item[1], item[2]` raises (uncaught), otherwise
it yields the shared `pass_size` verdict. -/
def algoSizeStep (it : RawItem) (minSize : ℚ) : Except Unit Bool :=
  match it with
  | .badLine _ => if 0 < minSize then .error () else .ok true
  | .ok d => .ok (pass_size d minSize)

/-- The emission `try:` block of `_create_geometry_layer`
(lines 593-675); any exception inside it is caught, skipping the item,
hence the plain `Option`.  The malformed line raises at
`p2 = item[2]` and is skipped. -/
def algoEmit (skipCurves : Bool) (pageH ox oy : ℚ) (fid : ℕ) :
    RawItem → Option Feature
  | .badLine _ => none
  | .ok d =>
    match d with
    | .line p1 p2 =>
      some ⟨fid, "line", [tr2 pageH ox oy p1, tr2 pageH ox oy p2]⟩
    | .curve pts =>
      if skipCurves then none
      else
        let tpts := (pts.take 4).map (tr2 pageH ox oy)
        if 2 ≤ tpts.length then some ⟨fid, "curve", tpts⟩ else none
    | .rect r =>
      some ⟨fid, "rectangle",
        [tr2 pageH ox oy (r.x0, r.y0), tr2 pageH ox oy (r.x1, r.y0),
         tr2 pageH ox oy (r.x1, r.y1), tr2 pageH ox oy (r.x0, r.y1),
         tr2 pageH ox oy (r.x0, r.y0)]⟩
    | .other tag pts =>
      if pts = [] then none
      else
        let gtype := "cmd_" ++ tag
        some ⟨fid, gtype, pts.map (tr2 pageH ox oy)⟩

/-- Item loop of `PdfToDxfAlgorithm._create_geometry_layer`
(lines 552-675): size filter outside the `try`, emission inside it. -/
def create_geometry_layer (minSize : ℚ) (skipCurves : Bool)
    (pageH ox oy : ℚ) : ℕ → List RawItem → Except Unit (List Feature)
  | _, [] => .ok []
  | fid, it :: rest =>
    match algoSizeStep it minSize with
    | .error e => .error e
    | .ok false => create_geometry_layer minSize skipCurves pageH ox oy fid rest
    | .ok true =>
      match algoEmit skipCurves pageH ox oy fid it with
      | some f =>
        (create_geometry_layer minSize skipCurves pageH ox oy (fid + 1) rest).map
          (fun fs => f :: fs)
      | none => create_geometry_layer minSize skipCurves pageH ox oy fid rest

/-!
## The coordinate transform (pdf_to_dxf_algorithm.py 792-812)
-/

/-- Input to `_simple_transform`: `pair` stands for a point whose
`point[0]`, `point[1]` convert with `float(...)`; `attrs` for an
object whose indexing fails but whose `.x`, `.y` attributes convert;
`bad` for a value where both attempts raise, triggering the final
`x, y = 0.0, 0.0` fallback. -/
inductive PyPoint where
  | pair (x y : ℚ)
  | attrs (x y : ℚ)
  | bad
deriving DecidableEq, Repr

/-- Embedding of `PdfToDxfAlgorithm._simple_transform(point,
page_height, offset_x, offset_y)`: flip the Y axis
(`new_y = page_height - y`) and add the placement offset.  The nested
`try`/`except` chain is the three-way match on `PyPoint`. -/
def simple_transform (point : PyPoint) (pageH ox oy : ℚ) : ℚ × ℚ :=
  match point with
  | .pair x y => (x + ox, (pageH - y) + oy)
  | .attrs x y => (x + ox, (pageH - y) + oy)
  | .bad => (0 + ox, (pageH - 0) + oy)

/-- Command tag used by concrete unrecognized-primitive examples. -/
def otherTag : String := "fill"

/-!
## Properties of the region codes
-/

/-- The nine values a region code can take. -/
def codeSet : List ℕ := [0, 1, 2, 4, 5, 6, 8, 9, 10]

lemma cc_mem (r : FRect) (x y : ℚ) : compute_code r x y ∈ codeSet := by
  unfold compute_code codeSet
  split_ifs <;> simp

lemma cc_and1 (r : FRect) (x y : ℚ) :
    compute_code r x y &&& 1 ≠ 0 ↔ x < r.x0 := by
  unfold compute_code
  by_cases hA : x < r.x0 <;> by_cases hB : r.x1 < x <;>
    by_cases hC : y < r.y0 <;> by_cases hD : r.y1 < y <;>
    simp [hA, hB, hC, hD]

lemma cc_and2 (r : FRect) (x y : ℚ) :
    compute_code r x y &&& 2 ≠ 0 ↔ ¬x < r.x0 ∧ r.x1 < x := by
  unfold compute_code
  by_cases hA : x < r.x0 <;> by_cases hB : r.x1 < x <;>
    by_cases hC : y < r.y0 <;> by_cases hD : r.y1 < y <;>
    simp [hA, hB, hC, hD] <;> decide

lemma cc_and4 (r : FRect) (x y : ℚ) :
    compute_code r x y &&& 4 ≠ 0 ↔ y < r.y0 := by
  unfold compute_code
  by_cases hA : x < r.x0 <;> by_cases hB : r.x1 < x <;>
    by_cases hC : y < r.y0 <;> by_cases hD : r.y1 < y <;>
    simp [hA, hB, hC, hD] <;> decide

lemma cc_and8 (r : FRect) (x y : ℚ) :
    compute_code r x y &&& 8 ≠ 0 ↔ ¬y < r.y0 ∧ r.y1 < y := by
  unfold compute_code
  by_cases hA : x < r.x0 <;> by_cases hB : r.x1 < x <;>
    by_cases hC : y < r.y0 <;> by_cases hD : r.y1 < y <;>
    simp [hA, hB, hC, hD] <;> decide

lemma cc_eq_zero (r : FRect) (x y : ℚ) :
    compute_code r x y = 0 ↔ ¬x < r.x0 ∧ ¬r.x1 < x ∧ ¬y < r.y0 ∧ ¬r.y1 < y := by
  unfold compute_code
  by_cases hA : x < r.x0 <;> by_cases hB : r.x1 < x <;>
    by_cases hC : y < r.y0 <;> by_cases hD : r.y1 < y <;>
    simp [hA, hB, hC, hD]

/-- With the vertical coordinate inside the band `[y0, y1]` the code
has only its horizontal part. -/
lemma cc_h (r : FRect) (x y : ℚ) (h0 : ¬y < r.y0) (h1 : ¬r.y1 < y) :
    compute_code r x y = (if x < r.x0 then 1 else if r.x1 < x then 2 else 0) := by
  unfold compute_code
  rw [if_neg h0, if_neg h1]
  omega

/-- With the horizontal coordinate inside the band `[x0, x1]` the code
has only its vertical part. -/
lemma cc_v (r : FRect) (x y : ℚ) (h0 : ¬x < r.x0) (h1 : ¬r.x1 < x) :
    compute_code r x y = (if y < r.y0 then 4 else if r.y1 < y then 8 else 0) := by
  unfold compute_code
  rw [if_neg h0, if_neg h1]
  omega

/-!
## Termination measure for the Cohen-Sutherland loop

Each clipping iteration replaces an outside endpoint by a point on the
violated boundary.  The measure `mu` -- zero once the two codes share
a bit (the next loop entry rejects), otherwise the total number of set
code bits -- strictly decreases at every iteration, which bounds the
loop by four clipping steps.
-/

/-- Number of set bits of a region code (only the nine values produced
by `compute_code` matter). -/
def pc : ℕ → ℕ
  | 0 => 0
  | 1 => 1
  | 2 => 1
  | 4 => 1
  | 5 => 2
  | 6 => 2
  | 8 => 1
  | 9 => 2
  | 10 => 2
  | _ => 0

/-- Loop measure on a pair of region codes. -/
def mu (c1 c2 : ℕ) : ℕ := if c1 &&& c2 ≠ 0 then 0 else pc c1 + pc c2

lemma mu_le (c1 c2 : ℕ) : mu c1 c2 ≤ pc c1 + pc c2 := by
  unfold mu
  split <;> omega

lemma pc_pos : ∀ c ∈ codeSet, c ≠ 0 → 0 < pc c := by decide

lemma pc_le_two : ∀ c ∈ codeSet, pc c ≤ 2 := by decide

lemma pc_two_of_v1 : ∀ c ∈ codeSet, c &&& 12 ≠ 0 → c &&& 1 ≠ 0 → pc c = 2 := by
  decide

lemma pc_two_of_v2 : ∀ c ∈ codeSet, c &&& 12 ≠ 0 → c &&& 2 ≠ 0 → pc c = 2 := by
  decide

lemma pc_two_of_h4 : ∀ c ∈ codeSet, c &&& 3 ≠ 0 → c &&& 4 ≠ 0 → pc c = 2 := by
  decide

lemma pc_two_of_h8 : ∀ c ∈ codeSet, c &&& 3 ≠ 0 → c &&& 8 ≠ 0 → pc c = 2 := by
  decide

lemma bit4_to_12 : ∀ c ∈ codeSet, c &&& 4 ≠ 0 → c &&& 12 ≠ 0 := by decide

lemma bit8_to_12 : ∀ c ∈ codeSet, c &&& 8 ≠ 0 → c &&& 12 ≠ 0 := by decide

lemma bit1_to_3 : ∀ c ∈ codeSet, c &&& 1 ≠ 0 → c &&& 3 ≠ 0 := by decide

lemma bit2_to_3 : ∀ c ∈ codeSet, c &&& 2 ≠ 0 → c &&& 3 ≠ 0 := by decide

/-- A nonzero code with all four boundary bits clear is impossible. -/
lemma last_bit : ∀ c ∈ codeSet, c ≠ 0 → c &&& 8 = 0 → c &&& 4 = 0 →
    c &&& 2 = 0 → c &&& 1 ≠ 0 := by decide

/-- Two codes sharing any one of the four boundary bits have a nonzero
bitwise AND. -/
lemma shared_bit : ∀ b ∈ [1, 2, 4, 8], ∀ c1 ∈ codeSet, ∀ c2 ∈ codeSet,
    c1 &&& b ≠ 0 → c2 &&& b ≠ 0 → c1 &&& c2 ≠ 0 := by decide

lemma and_one_left : ∀ c ∈ codeSet, c &&& 1 ≠ 0 → 1 &&& c ≠ 0 := by decide

lemma and_two_left : ∀ c ∈ codeSet, c &&& 2 ≠ 0 → 2 &&& c ≠ 0 := by decide

lemma and_four_left : ∀ c ∈ codeSet, c &&& 4 ≠ 0 → 4 &&& c ≠ 0 := by decide

lemma and_eight_left : ∀ c ∈ codeSet, c &&& 8 ≠ 0 → 8 &&& c ≠ 0 := by decide

lemma ne_zero_of_bit {c b : ℕ} (h : c &&& b ≠ 0) : c ≠ 0 := by
  intro h0
  rw [h0, Nat.zero_and] at h
  exact h rfl

/-- Convexity of linear interpolation: a point
`a + (b - a) * (num / den)` with `num / den ∈ [0, 1]` lies between `a`
and `b`, so any strict bound it violates is violated by `a` or `b`. -/
lemma lerp_lt (a b num den c : ℚ) (ht0 : 0 ≤ num / den) (ht1 : num / den ≤ 1)
    (h : a + (b - a) * num / den < c) : a < c ∨ b < c := by
  by_contra hc
  push_neg at hc
  rw [mul_div_assoc] at h
  nlinarith [mul_nonneg (sub_nonneg.mpr ht1) (sub_nonneg.mpr hc.1),
    mul_nonneg ht0 (sub_nonneg.mpr hc.2)]

lemma lt_lerp (a b num den c : ℚ) (ht0 : 0 ≤ num / den) (ht1 : num / den ≤ 1)
    (h : c < a + (b - a) * num / den) : c < a ∨ c < b := by
  by_contra hc
  push_neg at hc
  rw [mul_div_assoc] at h
  nlinarith [mul_nonneg (sub_nonneg.mpr ht1) (sub_nonneg.mpr hc.1),
    mul_nonneg ht0 (sub_nonneg.mpr hc.2)]

/-- A quotient of two nonpositive quantities with `den ≤ num` lies in
`[0, 1]`. -/
lemma div_unit_nonpos (num den : ℚ) (hnum : num ≤ 0) (hden : den < 0)
    (h : den ≤ num) : 0 ≤ num / den ∧ num / den ≤ 1 := by
  have hrw : num / den = (-num) / (-den) := by
    rw [neg_div_neg_eq]
  rw [hrw]
  constructor
  · exact div_nonneg (by linarith) (by linarith)
  · rw [div_le_one (by linarith)]
    linarith

/-- A quotient of two nonnegative quantities with `num ≤ den` lies in
`[0, 1]`. -/
lemma div_unit_nonneg (num den : ℚ) (hnum : 0 ≤ num) (hden : 0 < den)
    (h : num ≤ den) : 0 ≤ num / den ∧ num / den ≤ 1 := by
  constructor
  · exact div_nonneg hnum (by linarith)
  · rw [div_le_one hden]
    exact h

/-- Measure decrease after moving the first endpoint to a point on a
horizontal boundary line `y = yfix` inside the vertical band: the new
code of the endpoint has no vertical bits, and any horizontal bit it
has is inherited from one of the two old endpoints. -/
lemma muV_fst (r : FRect) (x1 x2 X yfix : ℚ) (c1 c2 : ℕ)
    (hm1 : c1 ∈ codeSet) (hm2 : c2 ∈ codeSet)
    (hv0 : ¬yfix < r.y0) (hv1 : ¬r.y1 < yfix)
    (hc1v : c1 &&& 12 ≠ 0) (hand : c1 &&& c2 = 0)
    (hXlo : X < r.x0 → x1 < r.x0 ∨ x2 < r.x0)
    (hXhi : r.x1 < X → r.x1 < x1 ∨ r.x1 < x2)
    (h1L : x1 < r.x0 → c1 &&& 1 ≠ 0) (h2L : x2 < r.x0 → c2 &&& 1 ≠ 0)
    (h1R : r.x1 < x1 → c1 &&& 2 ≠ 0) (h2R : r.x1 < x2 → c2 &&& 2 ≠ 0) :
    mu (compute_code r X yfix) c2 < mu c1 c2 := by
  have hone : 0 < pc c1 := pc_pos c1 hm1 (ne_zero_of_bit hc1v)
  have hmu : mu c1 c2 = pc c1 + pc c2 := by
    unfold mu
    rw [if_neg (by simp [hand])]
  rw [cc_h r X yfix hv0 hv1, hmu]
  split_ifs with hA hB
  · rcases hXlo hA with h | h
    · have h2 : pc c1 = 2 := pc_two_of_v1 c1 hm1 hc1v (h1L h)
      have hle := mu_le 1 c2
      have hpc1 : pc 1 = 1 := by decide
      omega
    · have hz : mu 1 c2 = 0 := by
        unfold mu
        rw [if_pos (and_one_left c2 hm2 (h2L h))]
      omega
  · rcases hXhi hB with h | h
    · have h2 : pc c1 = 2 := pc_two_of_v2 c1 hm1 hc1v (h1R h)
      have hle := mu_le 2 c2
      have hpc2 : pc 2 = 1 := by decide
      omega
    · have hz : mu 2 c2 = 0 := by
        unfold mu
        rw [if_pos (and_two_left c2 hm2 (h2R h))]
      omega
  · have hz : mu 0 c2 = pc c2 := by
      unfold mu
      rw [if_neg (by simp [Nat.zero_and])]
      simp [pc]
    omega

/-- Measure decrease after moving the first endpoint to a point on a
vertical boundary line `x = xfix` inside the horizontal band. -/
lemma muH_fst (r : FRect) (y1 y2 Y xfix : ℚ) (c1 c2 : ℕ)
    (hm1 : c1 ∈ codeSet) (hm2 : c2 ∈ codeSet)
    (hh0 : ¬xfix < r.x0) (hh1 : ¬r.x1 < xfix)
    (hc1h : c1 &&& 3 ≠ 0) (hand : c1 &&& c2 = 0)
    (hYlo : Y < r.y0 → y1 < r.y0 ∨ y2 < r.y0)
    (hYhi : r.y1 < Y → r.y1 < y1 ∨ r.y1 < y2)
    (h1B : y1 < r.y0 → c1 &&& 4 ≠ 0) (h2B : y2 < r.y0 → c2 &&& 4 ≠ 0)
    (h1T : r.y1 < y1 → c1 &&& 8 ≠ 0) (h2T : r.y1 < y2 → c2 &&& 8 ≠ 0) :
    mu (compute_code r xfix Y) c2 < mu c1 c2 := by
  have hone : 0 < pc c1 := pc_pos c1 hm1 (ne_zero_of_bit hc1h)
  have hmu : mu c1 c2 = pc c1 + pc c2 := by
    unfold mu
    rw [if_neg (by simp [hand])]
  rw [cc_v r xfix Y hh0 hh1, hmu]
  split_ifs with hA hB
  · rcases hYlo hA with h | h
    · have h2 : pc c1 = 2 := pc_two_of_h4 c1 hm1 hc1h (h1B h)
      have hle := mu_le 4 c2
      have hpc4 : pc 4 = 1 := by decide
      omega
    · have hz : mu 4 c2 = 0 := by
        unfold mu
        rw [if_pos (and_four_left c2 hm2 (h2B h))]
      omega
  · rcases hYhi hB with h | h
    · have h2 : pc c1 = 2 := pc_two_of_h8 c1 hm1 hc1h (h1T h)
      have hle := mu_le 8 c2
      have hpc8 : pc 8 = 1 := by decide
      omega
    · have hz : mu 8 c2 = 0 := by
        unfold mu
        rw [if_pos (and_eight_left c2 hm2 (h2T h))]
      omega
  · have hz : mu 0 c2 = pc c2 := by
      unfold mu
      rw [if_neg (by simp [Nat.zero_and])]
      simp [pc]
    omega

/-- Code-bit count decrease after moving the second endpoint to a
horizontal boundary line, when the first endpoint is inside the
rectangle. -/
lemma muV_snd (r : FRect) (x1 x2 X yfix : ℚ) (c2 : ℕ)
    (hm2 : c2 ∈ codeSet)
    (hv0 : ¬yfix < r.y0) (hv1 : ¬r.y1 < yfix)
    (hc2v : c2 &&& 12 ≠ 0)
    (h1L : ¬x1 < r.x0) (h1R : ¬r.x1 < x1)
    (hXlo : X < r.x0 → x1 < r.x0 ∨ x2 < r.x0)
    (hXhi : r.x1 < X → r.x1 < x1 ∨ r.x1 < x2)
    (h2L : x2 < r.x0 → c2 &&& 1 ≠ 0) (h2R : r.x1 < x2 → c2 &&& 2 ≠ 0) :
    pc (compute_code r X yfix) < pc c2 := by
  have h2pos : 0 < pc c2 := pc_pos c2 hm2 (ne_zero_of_bit hc2v)
  rw [cc_h r X yfix hv0 hv1]
  split_ifs with hA hB
  · rcases hXlo hA with h | h
    · exact absurd h h1L
    · have h2 : pc c2 = 2 := pc_two_of_v1 c2 hm2 hc2v (h2L h)
      have hpc1 : pc 1 = 1 := by decide
      omega
  · rcases hXhi hB with h | h
    · exact absurd h h1R
    · have h2 : pc c2 = 2 := pc_two_of_v2 c2 hm2 hc2v (h2R h)
      have hpc2 : pc 2 = 1 := by decide
      omega
  · have hpc0 : pc 0 = 0 := by decide
    omega

/-- Code-bit count decrease after moving the second endpoint to a
vertical boundary line, when the first endpoint is inside the
rectangle. -/
lemma muH_snd (r : FRect) (y1 y2 Y xfix : ℚ) (c2 : ℕ)
    (hm2 : c2 ∈ codeSet)
    (hh0 : ¬xfix < r.x0) (hh1 : ¬r.x1 < xfix)
    (hc2h : c2 &&& 3 ≠ 0)
    (h1B : ¬y1 < r.y0) (h1T : ¬r.y1 < y1)
    (hYlo : Y < r.y0 → y1 < r.y0 ∨ y2 < r.y0)
    (hYhi : r.y1 < Y → r.y1 < y1 ∨ r.y1 < y2)
    (h2B : y2 < r.y0 → c2 &&& 4 ≠ 0) (h2T : r.y1 < y2 → c2 &&& 8 ≠ 0) :
    pc (compute_code r xfix Y) < pc c2 := by
  have h2pos : 0 < pc c2 := pc_pos c2 hm2 (ne_zero_of_bit hc2h)
  rw [cc_v r xfix Y hh0 hh1]
  split_ifs with hA hB
  · rcases hYlo hA with h | h
    · exact absurd h h1B
    · have h2 : pc c2 = 2 := pc_two_of_h4 c2 hm2 hc2h (h2B h)
      have hpc4 : pc 4 = 1 := by decide
      omega
  · rcases hYhi hB with h | h
    · exact absurd h h1T
    · have h2 : pc c2 = 2 := pc_two_of_h8 c2 hm2 hc2h (h2T h)
      have hpc8 : pc 8 = 1 := by decide
      omega
  · have hpc0 : pc 0 = 0 := by decide
    omega

/-- One clipping iteration on the first endpoint strictly decreases
the measure. -/
lemma mu_step_fst (r : FRect) (hx : r.x0 ≤ r.x1) (hy : r.y0 ≤ r.y1)
    (x1 y1 x2 y2 : ℚ)
    (hc1 : compute_code r x1 y1 ≠ 0)
    (hand : compute_code r x1 y1 &&& compute_code r x2 y2 = 0) :
    mu (compute_code r
          (clipPoint r (compute_code r x1 y1) x1 y1 x2 y2).1
          (clipPoint r (compute_code r x1 y1) x1 y1 x2 y2).2)
       (compute_code r x2 y2)
    < mu (compute_code r x1 y1) (compute_code r x2 y2) := by
  have hm1 : compute_code r x1 y1 ∈ codeSet := cc_mem r x1 y1
  have hm2 : compute_code r x2 y2 ∈ codeSet := cc_mem r x2 y2
  by_cases h8 : compute_code r x1 y1 &&& 8 ≠ 0
  · -- TOP: p1 is above the rectangle
    have hT := (cc_and8 r x1 y1).mp h8
    have hc28 : compute_code r x2 y2 &&& 8 = 0 := by
      by_contra hcon
      exact shared_bit 8 (by decide) _ hm1 _ hm2 h8 (by simpa using hcon) hand
    have hy2 : y2 ≤ r.y1 := by
      by_cases hb : y2 < r.y0
      · linarith
      · by_contra hc
        push_neg at hc
        exact (cc_and8 r x2 y2).mpr ⟨hb, hc⟩ hc28
    have hden : y2 - y1 < 0 := by linarith [hT.2]
    have ht := div_unit_nonpos (r.y1 - y1) (y2 - y1) (by linarith [hT.2]) hden
      (by linarith)
    have hcp : clipPoint r (compute_code r x1 y1) x1 y1 x2 y2 =
        (x1 + (x2 - x1) * (r.y1 - y1) / (y2 - y1), r.y1) := by
      unfold clipPoint
      rw [if_pos h8]
    rw [hcp]
    refine muV_fst r x1 x2 _ r.y1 _ _ hm1 hm2 (by linarith) (lt_irrefl r.y1)
      (bit8_to_12 _ hm1 h8) hand
      (fun h => lerp_lt x1 x2 _ _ _ ht.1 ht.2 h)
      (fun h => lt_lerp x1 x2 _ _ _ ht.1 ht.2 h)
      (fun h => (cc_and1 r x1 y1).mpr h)
      (fun h => (cc_and1 r x2 y2).mpr h)
      (fun h => (cc_and2 r x1 y1).mpr ⟨by intro hcon; linarith, h⟩)
      (fun h => (cc_and2 r x2 y2).mpr ⟨by intro hcon; linarith, h⟩)
  · by_cases h4 : compute_code r x1 y1 &&& 4 ≠ 0
    · -- BOTTOM: p1 is below the rectangle
      have hB := (cc_and4 r x1 y1).mp h4
      have hc24 : compute_code r x2 y2 &&& 4 = 0 := by
        by_contra hcon
        exact shared_bit 4 (by decide) _ hm1 _ hm2 h4 (by simpa using hcon) hand
      have hy2 : r.y0 ≤ y2 := by
        by_contra hc
        push_neg at hc
        exact (cc_and4 r x2 y2).mpr hc hc24
      have hden : 0 < y2 - y1 := by linarith
      have ht := div_unit_nonneg (r.y0 - y1) (y2 - y1) (by linarith) hden
        (by linarith)
      have hcp : clipPoint r (compute_code r x1 y1) x1 y1 x2 y2 =
          (x1 + (x2 - x1) * (r.y0 - y1) / (y2 - y1), r.y0) := by
        unfold clipPoint
        rw [if_neg h8, if_pos h4]
      rw [hcp]
      refine muV_fst r x1 x2 _ r.y0 _ _ hm1 hm2 (lt_irrefl r.y0) (by linarith)
        (bit4_to_12 _ hm1 h4) hand
        (fun h => lerp_lt x1 x2 _ _ _ ht.1 ht.2 h)
        (fun h => lt_lerp x1 x2 _ _ _ ht.1 ht.2 h)
        (fun h => (cc_and1 r x1 y1).mpr h)
        (fun h => (cc_and1 r x2 y2).mpr h)
        (fun h => (cc_and2 r x1 y1).mpr ⟨by intro hcon; linarith, h⟩)
        (fun h => (cc_and2 r x2 y2).mpr ⟨by intro hcon; linarith, h⟩)
    · by_cases h2 : compute_code r x1 y1 &&& 2 ≠ 0
      · -- RIGHT: p1 is right of the rectangle
        have hR := (cc_and2 r x1 y1).mp h2
        have hc22 : compute_code r x2 y2 &&& 2 = 0 := by
          by_contra hcon
          exact shared_bit 2 (by decide) _ hm1 _ hm2 h2 (by simpa using hcon)
            hand
        have hx2 : x2 ≤ r.x1 := by
          by_cases hb : x2 < r.x0
          · linarith
          · by_contra hc
            push_neg at hc
            exact (cc_and2 r x2 y2).mpr ⟨hb, hc⟩ hc22
        have hden : x2 - x1 < 0 := by linarith [hR.2]
        have ht := div_unit_nonpos (r.x1 - x1) (x2 - x1) (by linarith [hR.2])
          hden (by linarith)
        have hcp : clipPoint r (compute_code r x1 y1) x1 y1 x2 y2 =
            (r.x1, y1 + (y2 - y1) * (r.x1 - x1) / (x2 - x1)) := by
          unfold clipPoint
          rw [if_neg h8, if_neg h4, if_pos h2]
        rw [hcp]
        refine muH_fst r y1 y2 _ r.x1 _ _ hm1 hm2 (by linarith)
          (lt_irrefl r.x1) (bit2_to_3 _ hm1 h2) hand
          (fun h => lerp_lt y1 y2 _ _ _ ht.1 ht.2 h)
          (fun h => lt_lerp y1 y2 _ _ _ ht.1 ht.2 h)
          (fun h => (cc_and4 r x1 y1).mpr h)
          (fun h => (cc_and4 r x2 y2).mpr h)
          (fun h => (cc_and8 r x1 y1).mpr ⟨by intro hcon; linarith, h⟩)
          (fun h => (cc_and8 r x2 y2).mpr ⟨by intro hcon; linarith, h⟩)
      · -- LEFT: p1 is left of the rectangle
        have h1 : compute_code r x1 y1 &&& 1 ≠ 0 :=
          last_bit _ hm1 hc1 (by simpa using h8) (by simpa using h4)
            (by simpa using h2)
        have hL := (cc_and1 r x1 y1).mp h1
        have hc21 : compute_code r x2 y2 &&& 1 = 0 := by
          by_contra hcon
          exact shared_bit 1 (by decide) _ hm1 _ hm2 h1 (by simpa using hcon)
            hand
        have hx2 : r.x0 ≤ x2 := by
          by_contra hc
          push_neg at hc
          exact (cc_and1 r x2 y2).mpr hc hc21
        have hden : 0 < x2 - x1 := by linarith
        have ht := div_unit_nonneg (r.x0 - x1) (x2 - x1) (by linarith) hden
          (by linarith)
        have hcp : clipPoint r (compute_code r x1 y1) x1 y1 x2 y2 =
            (r.x0, y1 + (y2 - y1) * (r.x0 - x1) / (x2 - x1)) := by
          unfold clipPoint
          rw [if_neg h8, if_neg h4, if_neg h2]
        rw [hcp]
        refine muH_fst r y1 y2 _ r.x0 _ _ hm1 hm2 (lt_irrefl r.x0)
          (by linarith) (bit1_to_3 _ hm1 h1) hand
          (fun h => lerp_lt y1 y2 _ _ _ ht.1 ht.2 h)
          (fun h => lt_lerp y1 y2 _ _ _ ht.1 ht.2 h)
          (fun h => (cc_and4 r x1 y1).mpr h)
          (fun h => (cc_and4 r x2 y2).mpr h)
          (fun h => (cc_and8 r x1 y1).mpr ⟨by intro hcon; linarith, h⟩)
          (fun h => (cc_and8 r x2 y2).mpr ⟨by intro hcon; linarith, h⟩)

lemma mu_zero_left (z : ℕ) : mu 0 z = pc z := by
  unfold mu
  rw [if_neg (by simp [Nat.zero_and])]
  simp [pc]

/-- One clipping iteration on the second endpoint (taken when the
first endpoint is already inside) strictly decreases the measure. -/
lemma mu_step_snd (r : FRect) (hx : r.x0 ≤ r.x1) (hy : r.y0 ≤ r.y1)
    (x1 y1 x2 y2 : ℚ)
    (hc1 : compute_code r x1 y1 = 0)
    (hc2 : compute_code r x2 y2 ≠ 0) :
    mu (compute_code r x1 y1)
       (compute_code r
          (clipPoint r (compute_code r x2 y2) x1 y1 x2 y2).1
          (clipPoint r (compute_code r x2 y2) x1 y1 x2 y2).2)
    < mu (compute_code r x1 y1) (compute_code r x2 y2) := by
  have hm2 : compute_code r x2 y2 ∈ codeSet := cc_mem r x2 y2
  have hin := (cc_eq_zero r x1 y1).mp hc1
  rw [hc1, mu_zero_left, mu_zero_left]
  by_cases h8 : compute_code r x2 y2 &&& 8 ≠ 0
  · -- TOP: p2 is above the rectangle
    have hT := (cc_and8 r x2 y2).mp h8
    have hden : 0 < y2 - y1 := by linarith [hin.2.2.2, hT.2, not_lt.mp hin.2.2.2]
    have ht := div_unit_nonneg (r.y1 - y1) (y2 - y1)
      (by linarith [not_lt.mp hin.2.2.2]) hden (by linarith [hT.2])
    have hcp : clipPoint r (compute_code r x2 y2) x1 y1 x2 y2 =
        (x1 + (x2 - x1) * (r.y1 - y1) / (y2 - y1), r.y1) := by
      unfold clipPoint
      rw [if_pos h8]
    rw [hcp]
    refine muV_snd r x1 x2 _ r.y1 _ hm2 (by linarith) (lt_irrefl r.y1)
      (bit8_to_12 _ hm2 h8) hin.1 hin.2.1
      (fun h => lerp_lt x1 x2 _ _ _ ht.1 ht.2 h)
      (fun h => lt_lerp x1 x2 _ _ _ ht.1 ht.2 h)
      (fun h => (cc_and1 r x2 y2).mpr h)
      (fun h => (cc_and2 r x2 y2).mpr ⟨by intro hcon; linarith, h⟩)
  · by_cases h4 : compute_code r x2 y2 &&& 4 ≠ 0
    · -- BOTTOM: p2 is below the rectangle
      have hB := (cc_and4 r x2 y2).mp h4
      have hden : y2 - y1 < 0 := by linarith [not_lt.mp hin.2.2.1]
      have ht := div_unit_nonpos (r.y0 - y1) (y2 - y1)
        (by linarith [not_lt.mp hin.2.2.1]) hden (by linarith)
      have hcp : clipPoint r (compute_code r x2 y2) x1 y1 x2 y2 =
          (x1 + (x2 - x1) * (r.y0 - y1) / (y2 - y1), r.y0) := by
        unfold clipPoint
        rw [if_neg h8, if_pos h4]
      rw [hcp]
      refine muV_snd r x1 x2 _ r.y0 _ hm2 (lt_irrefl r.y0) (by linarith)
        (bit4_to_12 _ hm2 h4) hin.1 hin.2.1
        (fun h => lerp_lt x1 x2 _ _ _ ht.1 ht.2 h)
        (fun h => lt_lerp x1 x2 _ _ _ ht.1 ht.2 h)
        (fun h => (cc_and1 r x2 y2).mpr h)
        (fun h => (cc_and2 r x2 y2).mpr ⟨by intro hcon; linarith, h⟩)
    · by_cases h2 : compute_code r x2 y2 &&& 2 ≠ 0
      · -- RIGHT: p2 is right of the rectangle
        have hR := (cc_and2 r x2 y2).mp h2
        have hden : 0 < x2 - x1 := by linarith [not_lt.mp hin.2.1, hR.2]
        have ht := div_unit_nonneg (r.x1 - x1) (x2 - x1)
          (by linarith [not_lt.mp hin.2.1]) hden (by linarith [hR.2])
        have hcp : clipPoint r (compute_code r x2 y2) x1 y1 x2 y2 =
            (r.x1, y1 + (y2 - y1) * (r.x1 - x1) / (x2 - x1)) := by
          unfold clipPoint
          rw [if_neg h8, if_neg h4, if_pos h2]
        rw [hcp]
        refine muH_snd r y1 y2 _ r.x1 _ hm2 (by linarith) (lt_irrefl r.x1)
          (bit2_to_3 _ hm2 h2) hin.2.2.1 hin.2.2.2
          (fun h => lerp_lt y1 y2 _ _ _ ht.1 ht.2 h)
          (fun h => lt_lerp y1 y2 _ _ _ ht.1 ht.2 h)
          (fun h => (cc_and4 r x2 y2).mpr h)
          (fun h => (cc_and8 r x2 y2).mpr ⟨by intro hcon; linarith, h⟩)
      · -- LEFT: p2 is left of the rectangle
        have h1 : compute_code r x2 y2 &&& 1 ≠ 0 :=
          last_bit _ hm2 hc2 (by simpa using h8) (by simpa using h4)
            (by simpa using h2)
        have hL := (cc_and1 r x2 y2).mp h1
        have hden : x2 - x1 < 0 := by linarith [not_lt.mp hin.1]
        have ht := div_unit_nonpos (r.x0 - x1) (x2 - x1)
          (by linarith [not_lt.mp hin.1]) hden (by linarith)
        have hcp : clipPoint r (compute_code r x2 y2) x1 y1 x2 y2 =
            (r.x0, y1 + (y2 - y1) * (r.x0 - x1) / (x2 - x1)) := by
          unfold clipPoint
          rw [if_neg h8, if_neg h4, if_neg h2]
        rw [hcp]
        refine muH_snd r y1 y2 _ r.x0 _ hm2 (lt_irrefl r.x0) (by linarith)
          (bit1_to_3 _ hm2 h1) hin.2.2.1 hin.2.2.2
          (fun h => lerp_lt y1 y2 _ _ _ ht.1 ht.2 h)
          (fun h => lt_lerp y1 y2 _ _ _ ht.1 ht.2 h)
          (fun h => (cc_and4 r x2 y2).mpr h)
          (fun h => (cc_and8 r x2 y2).mpr ⟨by intro hcon; linarith, h⟩)

/-- The clipping loop with enough fuel never exhausts it, for a
well-formed rectangle: the measure strictly decreases at every
clipping iteration. -/
lemma clipLoop_no_diverge (r : FRect) (hx : r.x0 ≤ r.x1) (hy : r.y0 ≤ r.y1) :
    ∀ fuel x1 y1 x2 y2 c1 c2,
      c1 = compute_code r x1 y1 → c2 = compute_code r x2 y2 →
      mu c1 c2 < fuel →
      clipLoop r fuel x1 y1 x2 y2 c1 c2 ≠ .diverged := by
  intro fuel
  induction fuel with
  | zero => intro x1 y1 x2 y2 c1 c2 _ _ h; omega
  | succ n ih =>
    intro x1 y1 x2 y2 c1 c2 hi1 hi2 hmu
    by_cases hz : c1 = 0 ∧ c2 = 0
    · simp [clipLoop, hz]
    · by_cases ha : c1 &&& c2 ≠ 0
      · simp [clipLoop, hz, ha]
      · push_neg at ha
        by_cases hc1 : c1 = 0
        · -- code_out = code2: clip the second endpoint
          have hc2 : c2 ≠ 0 := fun h => hz ⟨hc1, h⟩
          have h0 : compute_code r x1 y1 = 0 := by rw [← hi1]; exact hc1
          have hc2cc : compute_code r x2 y2 ≠ 0 := by rw [← hi2]; exact hc2
          have hdec := mu_step_snd r hx hy x1 y1 x2 y2 h0 hc2cc
          rw [← hi1, ← hi2] at hdec
          have hcall := ih x1 y1
            (clipPoint r c2 x1 y1 x2 y2).1 (clipPoint r c2 x1 y1 x2 y2).2
            c1 (compute_code r (clipPoint r c2 x1 y1 x2 y2).1
              (clipPoint r c2 x1 y1 x2 y2).2)
            hi1 rfl (by omega)
          simpa [clipLoop, hz, ha, hc1, hc2] using hcall
        · -- code_out = code1: clip the first endpoint
          have hc1cc : compute_code r x1 y1 ≠ 0 := by rw [← hi1]; exact hc1
          have hacc : compute_code r x1 y1 &&& compute_code r x2 y2 = 0 := by
            rw [← hi1, ← hi2]; exact ha
          have hdec := mu_step_fst r hx hy x1 y1 x2 y2 hc1cc hacc
          rw [← hi1, ← hi2] at hdec
          have hcall := ih
            (clipPoint r c1 x1 y1 x2 y2).1 (clipPoint r c1 x1 y1 x2 y2).2
            x2 y2
            (compute_code r (clipPoint r c1 x1 y1 x2 y2).1
              (clipPoint r c1 x1 y1 x2 y2).2) c2
            rfl hi2 (by omega)
          simpa [clipLoop, hz, ha, hc1] using hcall

/-- Invariant of the loop: when it accepts, both returned endpoints
carry a zero region code. -/
lemma clipLoop_seg (r : FRect) :
    ∀ fuel x1 y1 x2 y2 c1 c2 a b a2 b2,
      c1 = compute_code r x1 y1 → c2 = compute_code r x2 y2 →
      clipLoop r fuel x1 y1 x2 y2 c1 c2 = .seg a b a2 b2 →
      compute_code r a b = 0 ∧ compute_code r a2 b2 = 0 := by
  intro fuel
  induction fuel with
  | zero =>
    intro x1 y1 x2 y2 c1 c2 a b a2 b2 _ _ h
    simp [clipLoop] at h
  | succ n ih =>
    intro x1 y1 x2 y2 c1 c2 a b a2 b2 hi1 hi2 h
    by_cases hz : c1 = 0 ∧ c2 = 0
    · simp [clipLoop, hz] at h
      obtain ⟨rfl, rfl, rfl, rfl⟩ := h
      constructor
      · rw [← hi1]; exact hz.1
      · rw [← hi2]; exact hz.2
    · by_cases ha : c1 &&& c2 ≠ 0
      · simp [clipLoop, hz, ha] at h
      · by_cases hc1 : c1 = 0
        · have hc2 : c2 ≠ 0 := fun hcon => hz ⟨hc1, hcon⟩
          simp [clipLoop, hz, ha, hc1, hc2] at h
          exact ih x1 y1
            (clipPoint r c2 x1 y1 x2 y2).1 (clipPoint r c2 x1 y1 x2 y2).2
            0 _ a b a2 b2 (hc1 ▸ hi1) rfl h
        · simp [clipLoop, hz, ha, hc1] at h
          exact ih
            (clipPoint r c1 x1 y1 x2 y2).1 (clipPoint r c1 x1 y1 x2 y2).2
            x2 y2 _ c2 a b a2 b2 rfl hi2 h

/-- Claim C9: whenever `clip_line_to_rect` returns a segment (rather
than `None`) for a rectangle with `x0 ≤ x1` and `y0 ≤ y1`, both
returned endpoints lie inside the rectangle (their outcodes are
zero). -/
theorem c9_clip_postcondition (x1 y1 x2 y2 : ℚ) (r : FRect)
    (hx : r.x0 ≤ r.x1) (hy : r.y0 ≤ r.y1) (a b a2 b2 : ℚ)
    (h : clip_line_to_rect x1 y1 x2 y2 r = .seg a b a2 b2) :
    (r.x0 ≤ a ∧ a ≤ r.x1 ∧ r.y0 ≤ b ∧ b ≤ r.y1)
    ∧ (r.x0 ≤ a2 ∧ a2 ≤ r.x1 ∧ r.y0 ≤ b2 ∧ b2 ≤ r.y1) := by
  unfold clip_line_to_rect at h
  have hseg := clipLoop_seg r 5 x1 y1 x2 y2 _ _ a b a2 b2 rfl rfl h
  have h1 := (cc_eq_zero r a b).mp hseg.1
  have h2 := (cc_eq_zero r a2 b2).mp hseg.2
  exact ⟨⟨not_lt.mp h1.1, not_lt.mp h1.2.1, not_lt.mp h1.2.2.1,
      not_lt.mp h1.2.2.2⟩,
    ⟨not_lt.mp h2.1, not_lt.mp h2.2.1, not_lt.mp h2.2.2.1,
      not_lt.mp h2.2.2.2⟩⟩

theorem c9_witness :
    ((2 : ℚ) ≤ 2 ∧ (2 : ℚ) ≤ 8 ∧ (2 : ℚ) ≤ 2 ∧ (2 : ℚ) ≤ 8)
    ∧ ((2 : ℚ) ≤ 8 ∧ (8 : ℚ) ≤ 8 ∧ (2 : ℚ) ≤ 8 ∧ (8 : ℚ) ≤ 8) := by
  have h := c9_clip_postcondition 0 0 10 10 ⟨2, 2, 8, 8⟩ (by norm_num)
    (by norm_num) 2 2 8 8 (by with_unfolding_all rfl)
  simpa using h

/-- Claim C10: for every segment and every rectangle with
`x0 ≤ x1` and `y0 ≤ y1` the Cohen-Sutherland loop terminates -- the
fuel-5 embedding never reports exhaustion, so the function always
returns either a segment or `None`. -/
theorem c10_clip_terminates (x1 y1 x2 y2 : ℚ) (r : FRect)
    (hx : r.x0 ≤ r.x1) (hy : r.y0 ≤ r.y1) :
    clip_line_to_rect x1 y1 x2 y2 r ≠ .diverged := by
  unfold clip_line_to_rect
  refine clipLoop_no_diverge r hx hy 5 x1 y1 x2 y2 _ _ rfl rfl ?_
  have p1 := pc_le_two _ (cc_mem r x1 y1)
  have p2 := pc_le_two _ (cc_mem r x2 y2)
  have hle := mu_le (compute_code r x1 y1) (compute_code r x2 y2)
  omega

theorem c10_witness :
    clip_line_to_rect 1 1 9 9 ⟨0, 0, 5, 5⟩ ≠ .diverged :=
  c10_clip_terminates 1 1 9 9 ⟨0, 0, 5, 5⟩ (by norm_num) (by norm_num)

/-!
## The group-level pre-check is a pure optimization (claim C3)
-/

/-- The coordinate data of one raw item, as used to state that a
path's reported bounding box contains all points of its items (for a
rectangle item, its four corners). -/
def itemPoints : RawItem → List (ℚ × ℚ)
  | .ok (.line p1 p2) => [p1, p2]
  | .ok (.curve pts) => pts
  | .ok (.rect rr) => [(rr.x0, rr.y0), (rr.x1, rr.y0), (rr.x1, rr.y1), (rr.x0, rr.y1)]
  | .ok (.other _ pts) => pts
  | .badLine p1 => [p1]

/-- Membership of a point in a rectangle, boundary inclusive. -/
def inRectPt (dr : FRect) (p : ℚ × ℚ) : Prop :=
  dr.x0 ≤ p.1 ∧ p.1 ≤ dr.x1 ∧ dr.y0 ≤ p.2 ∧ p.2 ≤ dr.y1

instance (dr : FRect) (p : ℚ × ℚ) : Decidable (inRectPt dr p) := by
  unfold inRectPt
  infer_instance

/-- A segment with both endpoint outcodes sharing a bit is rejected in
the first loop iteration. -/
lemma clip_excluded_of_shared (x1 y1 x2 y2 : ℚ) (r : FRect)
    (h : compute_code r x1 y1 &&& compute_code r x2 y2 ≠ 0) :
    clip_line_to_rect x1 y1 x2 y2 r = .excluded := by
  have hc1 : compute_code r x1 y1 ≠ 0 := by
    intro h0
    rw [h0, Nat.zero_and] at h
    exact h rfl
  have key : ∀ fuel, clipLoop r (fuel + 1) x1 y1 x2 y2
      (compute_code r x1 y1) (compute_code r x2 y2) = .excluded := by
    intro fuel
    simp only [clipLoop]
    rw [if_neg (fun hz => hc1 hz.1), if_pos h]
  exact key 4

lemma inCrop_false_of (c : FRect) (p : ℚ × ℚ)
    (h : c.x1 < p.1 ∨ p.1 < c.x0 ∨ c.y1 < p.2 ∨ p.2 < c.y0) :
    inCrop c p = false := by
  simp only [inCrop, Bool.and_eq_false_iff, decide_eq_false_iff_not, not_le]
  tauto

/-- Exclusion of one item by the per-item rules, given a single crop
side violated by every point of the item. -/
lemma writeItem_none_core (cfg : WCfg) (c : FRect) (hc : cfg.crop = some c)
    (dr : FRect) (it : RawItem) (hpts : ∀ p ∈ itemPoints it, inRectPt dr p)
    (b : ℕ) (hb : b ∈ [1, 2, 4, 8])
    (hbit : ∀ p : ℚ × ℚ, inRectPt dr p → compute_code c p.1 p.2 &&& b ≠ 0)
    (hcropF : ∀ p : ℚ × ℚ, inRectPt dr p → inCrop c p = false)
    (hrectF : ∀ rr : FRect, it = .ok (.rect rr) →
      ¬(rr.x0 ≥ c.x0 ∧ rr.x1 ≤ c.x1 ∧ rr.y0 ≥ c.y0 ∧ rr.y1 ≤ c.y1))
    (fid : ℕ) : writeItem cfg fid it = none := by
  match it with
  | .badLine _ => rfl
  | .ok d =>
    by_cases hps : pass_size d cfg.minSize = false
    · simp [writeItem, hps]
    · match d with
      | .line p1 p2 =>
        have h1 := hbit p1 (hpts p1 (by simp [itemPoints]))
        have h2 := hbit p2 (hpts p2 (by simp [itemPoints]))
        have hA : compute_code c p1.1 p1.2 &&& compute_code c p2.1 p2.2 ≠ 0 :=
          shared_bit b hb _ (cc_mem c p1.1 p1.2) _ (cc_mem c p2.1 p2.2) h1 h2
        simp [writeItem, hps, hc, clip_excluded_of_shared _ _ _ _ _ hA]
      | .curve pts =>
        match pts with
        | [] => simp [writeItem, hps, hc]
        | p :: rest =>
          have hf : inCrop c p = false :=
            hcropF p (hpts p (by simp [itemPoints]))
          simp [writeItem, hps, hc, hf]
      | .rect rr =>
        simp [writeItem, hps, hc, hrectF rr rfl]
      | .other tag pts => simp [writeItem, hps]

/-- Under the hypotheses of claim C3, an item of a group whose
reported bounding box misses the crop rectangle is excluded by the
per-item rules themselves. -/
lemma writeItem_none_of_disjoint (cfg : WCfg) (c : FRect)
    (hc : cfg.crop = some c) (hvx : c.x0 ≤ c.x1) (hvy : c.y0 ≤ c.y1)
    (dr : FRect)
    (hdisj : ¬(dr.x0 ≤ c.x1 ∧ dr.x1 ≥ c.x0 ∧ dr.y0 ≤ c.y1 ∧ dr.y1 ≥ c.y0))
    (it : RawItem) (hpts : ∀ p ∈ itemPoints it, inRectPt dr p) (fid : ℕ) :
    writeItem cfg fid it = none := by
  have hdis : c.x1 < dr.x0 ∨ dr.x1 < c.x0 ∨ c.y1 < dr.y0 ∨ dr.y1 < c.y0 := by
    by_contra hcon
    push_neg at hcon
    exact hdisj ⟨by linarith [hcon.1], by linarith [hcon.2.1],
      by linarith [hcon.2.2.1], by linarith [hcon.2.2.2]⟩
  rcases hdis with h | h | h | h
  · -- the whole box, hence every point, is strictly right of the crop
    refine writeItem_none_core cfg c hc dr it hpts 2 (by decide) ?_ ?_ ?_ fid
    · intro p hp
      exact (cc_and2 c p.1 p.2).mpr
        ⟨not_lt.mpr (by linarith [hp.1]), by linarith [hp.1]⟩
    · intro p hp
      exact inCrop_false_of c p (Or.inl (by linarith [hp.1]))
    · intro rr hrr hcont2
      have hcorner := hpts (rr.x1, rr.y0) (by rw [hrr]; simp [itemPoints])
      exact absurd hcont2.2.1 (not_le.mpr (by linarith [hcorner.1]))
  · -- strictly left of the crop
    refine writeItem_none_core cfg c hc dr it hpts 1 (by decide) ?_ ?_ ?_ fid
    · intro p hp
      exact (cc_and1 c p.1 p.2).mpr (by linarith [hp.2.1])
    · intro p hp
      exact inCrop_false_of c p (Or.inr (Or.inl (by linarith [hp.2.1])))
    · intro rr hrr hcont2
      have hcorner := hpts (rr.x0, rr.y0) (by rw [hrr]; simp [itemPoints])
      exact absurd hcont2.1 (not_le.mpr (by linarith [hcorner.2.1]))
  · -- strictly above the crop (larger y)
    refine writeItem_none_core cfg c hc dr it hpts 8 (by decide) ?_ ?_ ?_ fid
    · intro p hp
      exact (cc_and8 c p.1 p.2).mpr
        ⟨not_lt.mpr (by linarith [hp.2.2.1]), by linarith [hp.2.2.1]⟩
    · intro p hp
      exact inCrop_false_of c p
        (Or.inr (Or.inr (Or.inl (by linarith [hp.2.2.1]))))
    · intro rr hrr hcont2
      have hcorner := hpts (rr.x1, rr.y1) (by rw [hrr]; simp [itemPoints])
      exact absurd hcont2.2.2.2 (not_le.mpr (by linarith [hcorner.2.2.1]))
  · -- strictly below the crop (smaller y)
    refine writeItem_none_core cfg c hc dr it hpts 4 (by decide) ?_ ?_ ?_ fid
    · intro p hp
      exact (cc_and4 c p.1 p.2).mpr (by linarith [hp.2.2.2])
    · intro p hp
      exact inCrop_false_of c p
        (Or.inr (Or.inr (Or.inr (by linarith [hp.2.2.2]))))
    · intro rr hrr hcont2
      have hcorner := hpts (rr.x0, rr.y0) (by rw [hrr]; simp [itemPoints])
      exact absurd hcont2.2.2.1 (not_le.mpr (by linarith [hcorner.2.2.2]))

lemma writeItems_nil_of_disjoint (cfg : WCfg) (c : FRect)
    (hc : cfg.crop = some c) (hvx : c.x0 ≤ c.x1) (hvy : c.y0 ≤ c.y1)
    (dr : FRect)
    (hdisj : ¬(dr.x0 ≤ c.x1 ∧ dr.x1 ≥ c.x0 ∧ dr.y0 ≤ c.y1 ∧ dr.y1 ≥ c.y0)) :
    ∀ (items : List RawItem) (fid : ℕ),
      (∀ it ∈ items, ∀ p ∈ itemPoints it, inRectPt dr p) →
      writeItems cfg fid items = ([], fid) := by
  intro items
  induction items with
  | nil => intro fid _; rfl
  | cons it rest ih =>
    intro fid hcont
    have h0 : writeItem cfg fid it = none :=
      writeItem_none_of_disjoint cfg c hc hvx hvy dr hdisj it
        (hcont it (List.mem_cons_self it rest)) fid
    simp only [writeItems, h0]
    exact ih fid (fun i hi => hcont i (List.mem_cons_of_mem it hi))

/-- Claim C3: for a crop rectangle with `x0 ≤ x1`, `y0 ≤ y1` and
drawing groups whose reported bounding boxes contain all points of
their items, the geometry writer with the group-level bounding-box
intersection pre-check emits exactly the same features (and ends at
the same feature id) as running the per-item clip rules on every item
directly: the pre-check only drops groups whose items would all be
excluded anyway. -/
theorem c3_precheck_refinement (cfg : WCfg) (c : FRect)
    (hc : cfg.crop = some c) (hvx : c.x0 ≤ c.x1) (hvy : c.y0 ≤ c.y1)
    (groups : List DrawGroup)
    (hcont : ∀ g ∈ groups, ∀ dr, g.rect = some dr →
      ∀ it ∈ g.items, ∀ p ∈ itemPoints it, inRectPt dr p) (fid : ℕ) :
    write_geometry cfg fid groups = write_geometry_noPre cfg fid groups := by
  induction groups generalizing fid with
  | nil => rfl
  | cons g gs ih =>
    have hg : writeGroup cfg fid g = writeItems cfg fid g.items := by
      unfold writeGroup
      rw [hc]
      cases hr : g.rect with
      | none => rfl
      | some dr =>
        by_cases hd : dr.x0 ≤ c.x1 ∧ dr.x1 ≥ c.x0 ∧ dr.y0 ≤ c.y1 ∧
            dr.y1 ≥ c.y0
        · simp [hd]
        · simp only [hd, not_false_eq_true, if_true]
          exact (writeItems_nil_of_disjoint cfg c hc hvx hvy dr hd g.items fid
            (hcont g (List.mem_cons_self g gs) dr hr)).symm
    simp only [write_geometry, write_geometry_noPre]
    rw [hg]
    exact congrArg _ (ih (fun g' hg' => hcont g' (List.mem_cons_of_mem g hg'))
      (writeItems cfg fid g.items).2)

theorem c3_precheck_refinement_witness :
    write_geometry ⟨some ⟨10, 10, 20, 20⟩, 0, false, 100, 0, 0⟩ 0
        [⟨some ⟨0, 0, 5, 5⟩, [.ok (.line (1, 1) (2, 2))]⟩] =
      write_geometry_noPre ⟨some ⟨10, 10, 20, 20⟩, 0, false, 100, 0, 0⟩ 0
        [⟨some ⟨0, 0, 5, 5⟩, [.ok (.line (1, 1) (2, 2))]⟩] :=
  c3_precheck_refinement ⟨some ⟨10, 10, 20, 20⟩, 0, false, 100, 0, 0⟩
    ⟨10, 10, 20, 20⟩ rfl (by norm_num) (by norm_num)
    [⟨some ⟨0, 0, 5, 5⟩, [.ok (.line (1, 1) (2, 2))]⟩] (by decide) 0

/-!
## Claims settled by direct computation and small case analyses
-/

/-- Claim C1 fails on the code.  With `cropRegion` absent the tabular
geometry writer does emit each size-filtered item unchanged up to the
coordinate transform, but the direct DXF page conversion
(`convert_pdf_page_to_dxf_direct` in pdftodxf_dialog.py) emits no
geometry at all: its per-item block sits inside `if crop_rect:` with
no item loop binding `item`, so with no crop the block never runs (and
with a crop it raises `NameError`, swallowed per path).  On a page
with one line drawing the direct conversion produces zero geometry
entities while the tabular writer produces the transformed line. -/
theorem c1_no_crop_direct_vs_tabular :
    convert_direct_drawings none
        [⟨some ⟨0, 0, 10, 10⟩, [.ok (.line (0, 0) (10, 10))]⟩] = []
    ∧ write_geometry ⟨none, 0, false, 100, 0, 0⟩ 0
        [⟨some ⟨0, 0, 10, 10⟩, [.ok (.line (0, 0) (10, 10))]⟩] =
      [⟨0, "line", [(0, 100), (10, 90)]⟩] :=
  ⟨rfl, by with_unfolding_all rfl⟩

/-- Claim C5 fails on the direct DXF conversion code (and holds of the
tabular writer's per-item rules).  With crop rectangle
`(0,0,100,100)`: a curve with all control points inside and a fully
contained rectangle are emitted by the tabular writer exactly as their
transformed control points and corners, but the direct conversion
emits nothing (dead per-item block); and the same writer wholly
excludes a curve with one control point outside and a rectangle not
fully contained (nothing partially clipped). -/
theorem c5_containment_eval :
    convert_direct_drawings (some ⟨0, 0, 100, 100⟩)
        [⟨some ⟨0, 0, 30, 30⟩,
          [.ok (.curve [(1, 1), (2, 2), (3, 3)]),
           .ok (.rect ⟨5, 5, 20, 20⟩)]⟩] = []
    ∧ write_geometry ⟨some ⟨0, 0, 100, 100⟩, 0, false, 100, 0, 0⟩ 0
        [⟨some ⟨0, 0, 30, 30⟩,
          [.ok (.curve [(1, 1), (2, 2), (3, 3)]),
           .ok (.rect ⟨5, 5, 20, 20⟩)]⟩] =
      [⟨0, "curve", [(1, 99), (2, 98), (3, 97)]⟩,
       ⟨1, "rect", [(5, 95), (20, 95), (20, 80), (5, 80), (5, 95)]⟩]
    ∧ write_geometry ⟨some ⟨0, 0, 100, 100⟩, 0, false, 100, 0, 0⟩ 0
        [⟨some ⟨0, 0, 30, 30⟩,
          [.ok (.curve [(1, 1), (2, 200), (3, 3)]),
           .ok (.rect ⟨5, 5, 120, 20⟩)]⟩] = [] :=
  ⟨rfl, by with_unfolding_all rfl, by with_unfolding_all rfl⟩

/-- Nine valid line items with one malformed line item (missing its
second point) among them. -/
def nineWithBad : List RawItem :=
  [.ok (.line (0, 0) (1, 1)), .ok (.line (1, 0) (2, 1)),
   .ok (.line (2, 0) (3, 1)), .ok (.line (3, 0) (4, 1)),
   .badLine (4, 0),
   .ok (.line (4, 0) (5, 1)), .ok (.line (5, 0) (6, 1)),
   .ok (.line (6, 0) (7, 1)), .ok (.line (7, 0) (8, 1)),
   .ok (.line (8, 0) (9, 1))]

/-- Claim C8 is false on the code: the processing-algorithm geometry
writer runs its size filter before the per-item `try`, so with
`min_size = 1` a malformed line item raises an uncaught exception and
the whole loop aborts (no later item is processed), instead of only
that item being skipped. -/
theorem c8_counterexample :
    create_geometry_layer 1 false 100 0 0 0
      [.badLine (0, 0), .ok (.line (0, 0) (5, 5))] = .error () := rfl

/-- Claim C8, amended: in the tabular task writer every per-item
exception (modelled by the malformed line item) is caught and only
that item is skipped, for every configuration; in the
processing-algorithm writer the same holds whenever `minSize ≤ 0`
(with `minSize > 0` the size filter can raise outside the handler,
see the counterexample); and a drawing list of nine valid items plus
one malformed item yields exactly nine emitted features in both
writers with `minSize = 0` and no crop. -/
theorem c8_amended_best_effort :
    (∀ (cfg : WCfg) (xs ys : List RawItem) (fid : ℕ) (p : ℚ × ℚ),
      writeItems cfg fid (xs ++ .badLine p :: ys) =
        writeItems cfg fid (xs ++ ys))
    ∧ (∀ (m : ℚ), m ≤ 0 → ∀ (sc : Bool) (pH ox oy : ℚ)
        (xs ys : List RawItem) (fid : ℕ) (p : ℚ × ℚ),
      create_geometry_layer m sc pH ox oy fid (xs ++ .badLine p :: ys) =
        create_geometry_layer m sc pH ox oy fid (xs ++ ys))
    ∧ (writeItems ⟨none, 0, false, 100, 0, 0⟩ 0 nineWithBad).1.length = 9
    ∧ (create_geometry_layer 0 false 100 0 0 0 nineWithBad).map
        (fun fs => fs.length) = .ok 9 := by
  refine ⟨?_, ?_, ?_, ?_⟩
  · intro cfg xs
    induction xs with
    | nil =>
      intro ys fid p
      simp [writeItems, writeItem]
    | cons x rest ih =>
      intro ys fid p
      simp only [List.cons_append, writeItems]
      cases h : writeItem cfg fid x with
      | some f => simp only [h, List.append_eq]; rw [ih]
      | none => simp only [h, List.append_eq]; rw [ih]
  · intro m hm sc pH ox oy xs
    have hm' : ¬0 < m := not_lt.mpr hm
    induction xs with
    | nil =>
      intro ys fid p
      simp [create_geometry_layer, algoSizeStep, algoEmit, hm']
    | cons x rest ih =>
      intro ys fid p
      simp only [List.cons_append, create_geometry_layer]
      cases h1 : algoSizeStep x m with
      | error e => simp only [h1]
      | ok b =>
        cases b with
        | false => simp only [h1, List.append_eq]; rw [ih]
        | true =>
          simp only [h1]
          cases h2 : algoEmit sc pH ox oy fid x with
          | some f => simp only [h2, List.append_eq]; rw [ih]
          | none => simp only [h2, List.append_eq]; rw [ih]
  · with_unfolding_all rfl
  · with_unfolding_all rfl

theorem c8_amended_witness :
    writeItems ⟨none, 0, false, 100, 0, 0⟩ 0
        ([] ++ .badLine (4, 0) :: [.ok (.line (0, 0) (1, 1))]) =
      writeItems ⟨none, 0, false, 100, 0, 0⟩ 0
        ([] ++ [.ok (.line (0, 0) (1, 1))])
    ∧ (0 : ℚ) ≤ 0
    ∧ create_geometry_layer 0 false 100 0 0 0
        ([] ++ .badLine (4, 0) :: [.ok (.line (0, 0) (1, 1))]) =
      create_geometry_layer 0 false 100 0 0 0
        ([] ++ [.ok (.line (0, 0) (1, 1))]) :=
  ⟨c8_amended_best_effort.1 ⟨none, 0, false, 100, 0, 0⟩ []
      [.ok (.line (0, 0) (1, 1))] 0 (4, 0),
   le_refl 0,
   c8_amended_best_effort.2.1 0 (le_refl 0) false 100 0 0 []
      [.ok (.line (0, 0) (1, 1))] 0 (4, 0)⟩

/-- Claim C2: `clip_line_to_rect` on the segment `(0,0)-(10,10)` with
crop rectangle `(2,2,8,8)` returns the clipped segment `(2,2)-(8,8)`;
on `(20,20)-(30,30)` with the same rectangle it returns exclusion
(`None`), and indeed the bitwise AND of the two endpoint outcodes is
nonzero. -/
theorem c2_clip_examples :
    clip_line_to_rect 0 0 10 10 ⟨2, 2, 8, 8⟩ = .seg 2 2 8 8
    ∧ clip_line_to_rect 20 20 30 30 ⟨2, 2, 8, 8⟩ = .excluded
    ∧ compute_code ⟨2, 2, 8, 8⟩ 20 20 &&& compute_code ⟨2, 2, 8, 8⟩ 30 30 ≠ 0 :=
  ⟨by with_unfolding_all rfl, by decide, by decide⟩

/-- Claim C4 is false on the code: an item with an unrecognized
command tag does not pass the size filter at threshold 1; its default
extents are `(0, 0)` and `max 0 0 < 1`. -/
theorem c4_counterexample :
    ¬pass_size (.other otherTag [(3, 3)]) 1 = true := by decide

/-- Claim C4, amended: for every `minSize > 0` an item whose command
tag is not a line, curve or rectangle fails the size filter (both
writers leave its bounding-box extents at the initial `(0, 0)`, and
`max 0 0 < minSize`); such items pass only when `minSize ≤ 0`. -/
theorem c4_amended_other_fails_size (tag : String) (pts : List (ℚ × ℚ))
    (m : ℚ) (hm : 0 < m) :
    pass_size (.other tag pts) m = false := by
  simp [pass_size, sizeWH, hm]

theorem c4_amended_witness :
    (0 : ℚ) < 1 ∧ pass_size (.other otherTag [(3, 3)]) 1 = false :=
  ⟨by norm_num, c4_amended_other_fails_size otherTag [(3, 3)] 1 (by norm_num)⟩

/-- Claim C6: for numeric coordinates (whether read by indexing or by
the `.x`/`.y` attribute fallback) `_simple_transform` returns exactly
`(x + offsetX, (pageHeight - y) + offsetY)`; for a point where both
reads fail the coordinates default to `(0, 0)`, so the result is
`(offsetX, pageHeight + offsetY)` and no exception escapes. -/
theorem c6_simple_transform_spec :
    (∀ x y pageH ox oy : ℚ,
      simple_transform (.pair x y) pageH ox oy = (x + ox, (pageH - y) + oy))
    ∧ (∀ x y pageH ox oy : ℚ,
      simple_transform (.attrs x y) pageH ox oy = (x + ox, (pageH - y) + oy))
    ∧ (∀ pageH ox oy : ℚ,
      simple_transform .bad pageH ox oy = (ox, pageH + oy)) := by
  refine ⟨fun _ _ _ _ _ => rfl, fun _ _ _ _ _ => rfl, fun pageH ox oy => ?_⟩
  simp [simple_transform]

/-- Claim C7: the size filter is monotone in the threshold -- once an
item fails at `t1` it fails at every `t2 > t1`; moreover a failing
threshold is strictly positive, and at a positive threshold an item
passes iff `max(w, h) ≥ threshold` for its type-specific extents. -/
theorem c7_size_filter_monotone :
    (∀ (it : DrawItem) (t1 t2 : ℚ),
      pass_size it t1 = false → t1 < t2 → pass_size it t2 = false)
    ∧ (∀ (it : DrawItem) (t : ℚ), pass_size it t = false → 0 < t)
    ∧ (∀ (it : DrawItem) (t : ℚ), 0 < t →
      (pass_size it t = true ↔ t ≤ max (sizeWH it).1 (sizeWH it).2)) := by
  have key : ∀ (it : DrawItem) (t : ℚ),
      pass_size it t = false ↔ 0 < t ∧ max (sizeWH it).1 (sizeWH it).2 < t := by
    intro it t
    unfold pass_size
    split_ifs with h1 h2 <;> simp_all
  refine ⟨fun it t1 t2 h1 h2 => ?_, fun it t h => ((key it t).mp h).1,
    fun it t ht => ?_⟩
  · rcases (key it t1).mp h1 with ⟨ha, hb⟩
    exact (key it t2).mpr ⟨by linarith, by linarith⟩
  · constructor
    · intro h
      by_contra hc
      push_neg at hc
      have := (key it t).mpr ⟨ht, hc⟩
      rw [h] at this
      cases this
    · intro h
      cases hps : pass_size it t with
      | false => rcases (key it t).mp hps with ⟨_, hb⟩; linarith
      | true => rfl

theorem c7_witness :
    pass_size (.line (0, 0) (1, 0)) 2 = false ∧ (2 : ℚ) < 3
    ∧ pass_size (.line (0, 0) (1, 0)) 3 = false :=
  ⟨by with_unfolding_all rfl, by norm_num,
    c7_size_filter_monotone.1 (.line (0, 0) (1, 0)) 2 3
      (by with_unfolding_all rfl) (by norm_num)⟩
